import Mathlib

/-!
Verification of the spectral field-update kernels of `fbpic/fields/cuda_methods.py`
(the PSATD field-update core of the FB-PIC simulation).

Each CUDA kernel is modelled as a Lean function describing one kernel
invocation at thread index `(iz, ir)`: it receives the arrays (modelled as
total functions from index pairs to values), performs the guarded per-cell
update of the Python body, and returns the updated arrays.  `complex128`
values are modelled in exact arithmetic by complex numbers with rational
components (`CC` below); `float64` scalars and real arrays by `ℚ`.  The
physical constants `c2 = c**2`, `mu_0`, `epsilon_0` imported from
`scipy.constants` are abstracted as parameters of the kernels.
-/

/-- Complex numbers with rational real and imaginary parts: the exact-arithmetic
model of a `complex128` value. -/
structure CC where
  re : ℚ
  im : ℚ
deriving DecidableEq, Repr

namespace CC

@[ext] theorem ext' {x y : CC} (h1 : x.re = y.re) (h2 : x.im = y.im) : x = y := by
  cases x; cases y; simp_all

instance : Zero CC := ⟨⟨0, 0⟩⟩

instance : One CC := ⟨⟨1, 0⟩⟩

instance : Add CC := ⟨fun x y => ⟨x.re + y.re, x.im + y.im⟩⟩

instance : Neg CC := ⟨fun x => ⟨-x.re, -x.im⟩⟩

instance : Sub CC := ⟨fun x y => ⟨x.re - y.re, x.im - y.im⟩⟩

instance : Mul CC := ⟨fun x y => ⟨x.re * y.re - x.im * y.im, x.re * y.im + x.im * y.re⟩⟩

/-- The imaginary unit, i.e. Python's `1.j`. -/
def I : CC := ⟨0, 1⟩

/-- Embedding of a real (`float64`) scalar into a complex value. -/
def ofQ (q : ℚ) : CC := ⟨q, 0⟩

@[simp] theorem zero_re : (0 : CC).re = 0 := rfl

@[simp] theorem zero_im : (0 : CC).im = 0 := rfl

@[simp] theorem one_re : (1 : CC).re = 1 := rfl

@[simp] theorem one_im : (1 : CC).im = 0 := rfl

@[simp] theorem add_re (x y : CC) : (x + y).re = x.re + y.re := rfl

@[simp] theorem add_im (x y : CC) : (x + y).im = x.im + y.im := rfl

@[simp] theorem neg_re (x : CC) : (-x).re = -x.re := rfl

@[simp] theorem neg_im (x : CC) : (-x).im = -x.im := rfl

@[simp] theorem sub_re (x y : CC) : (x - y).re = x.re - y.re := rfl

@[simp] theorem sub_im (x y : CC) : (x - y).im = x.im - y.im := rfl

@[simp] theorem mul_re (x y : CC) : (x * y).re = x.re * y.re - x.im * y.im := rfl

@[simp] theorem mul_im (x y : CC) : (x * y).im = x.re * y.im + x.im * y.re := rfl

@[simp] theorem I_re : I.re = 0 := rfl

@[simp] theorem I_im : I.im = 1 := rfl

@[simp] theorem ofQ_re (q : ℚ) : (ofQ q).re = q := rfl

@[simp] theorem ofQ_im (q : ℚ) : (ofQ q).im = 0 := rfl

instance : CommRing CC where
  add_assoc := by intros; ext <;> simp <;> ring
  zero_add := by intros; ext <;> simp
  add_zero := by intros; ext <;> simp
  add_comm := by intros; ext <;> simp <;> ring
  mul_assoc := by intros; ext <;> simp <;> ring
  one_mul := by intros; ext <;> simp
  mul_one := by intros; ext <;> simp
  left_distrib := by intros; ext <;> simp <;> ring
  right_distrib := by intros; ext <;> simp <;> ring
  mul_comm := by intros; ext <;> simp <;> ring
  zero_mul := by intros; ext <;> simp
  mul_zero := by intros; ext <;> simp
  neg_add_cancel := by intros; ext <;> simp
  sub_eq_add_neg := by intros; ext <;> simp <;> ring
  nsmul := fun n x => ⟨n * x.re, n * x.im⟩
  nsmul_zero := by intros; ext <;> simp
  nsmul_succ := by intros; ext <;> simp <;> ring
  zsmul := fun n x => ⟨n * x.re, n * x.im⟩
  zsmul_zero' := by intros; ext <;> simp
  zsmul_succ' := by intros; ext <;> push_cast <;> simp <;> ring
  zsmul_neg' := by intros; ext <;> push_cast <;> simp <;> ring

@[simp] theorem I_mul_I : I * I = -1 := by ext <;> simp

@[simp] theorem ofQ_add (a b : ℚ) : ofQ (a + b) = ofQ a + ofQ b := by ext <;> simp

@[simp] theorem ofQ_mul (a b : ℚ) : ofQ (a * b) = ofQ a * ofQ b := by ext <;> simp

@[simp] theorem ofQ_zero : ofQ 0 = 0 := rfl

@[simp] theorem ofQ_one : ofQ 1 = 1 := rfl

end CC

open CC (I ofQ)

/-- A 2D `complex128` array, modelled as a total function from index pairs
(first axis `z`, second axis `r`) to complex values. -/
abbrev Grid := Nat → Nat → CC

/-- A 2D `float64` array. -/
abbrev RGrid := Nat → Nat → ℚ

/-- A 1D `float64` array (indexed by the radial index). -/
abbrev RVec := Nat → ℚ

/-- Write value `v` at cell `(iz, ir)` of a grid, leaving all other cells
unchanged: the model of an array element assignment `g[iz, ir] = v`. -/
def setCell (g : Grid) (iz ir : Nat) (v : CC) : Grid :=
  fun i j => if i = iz ∧ j = ir then v else g i j

@[simp] theorem setCell_same (g : Grid) (iz ir : Nat) (v : CC) :
    setCell g iz ir v iz ir = v := by
  simp [setCell]

theorem setCell_other (g : Grid) (iz ir i j : Nat) (v : CC)
    (h : ¬(i = iz ∧ j = ir)) : setCell g iz ir v i j = g i j := by
  simp [setCell, h]

/-- A shaped 2D `complex128` array: a numpy array carrying its own
`shape = (nz, nr)` together with its contents.  Used by the kernels whose
bound check reads `mode0.shape` rather than explicit `Nz, Nr` arguments. -/
structure CArr where
  nz : Nat
  nr : Nat
  data : Grid

/-- One invocation of the kernel `cuda_erase_scalar(mode0, mode1)` at thread
index `(iz, ir)`: if the index is within `mode0`'s shape, set the cell of
both arrays to `0`; otherwise do nothing. -/
def cuda_erase_scalar (mode0 mode1 : CArr) (iz ir : Nat) : CArr × CArr :=
  if iz < mode0.nz ∧ ir < mode0.nr then
    ({ mode0 with data := setCell mode0.data iz ir 0 },
     { mode1 with data := setCell mode1.data iz ir 0 })
  else
    (mode0, mode1)

/-- One invocation of `cuda_erase_vector(mode0r, mode1r, mode0t, mode1t,
mode0z, mode1z)` at thread index `(iz, ir)`: guarded on `mode0r`'s shape,
sets the cell of all six arrays to `0`. -/
def cuda_erase_vector (mode0r mode1r mode0t mode1t mode0z mode1z : CArr)
    (iz ir : Nat) : CArr × CArr × CArr × CArr × CArr × CArr :=
  if iz < mode0r.nz ∧ ir < mode0r.nr then
    ({ mode0r with data := setCell mode0r.data iz ir 0 },
     { mode1r with data := setCell mode1r.data iz ir 0 },
     { mode0t with data := setCell mode0t.data iz ir 0 },
     { mode1t with data := setCell mode1t.data iz ir 0 },
     { mode0z with data := setCell mode0z.data iz ir 0 },
     { mode1z with data := setCell mode1z.data iz ir 0 })
  else
    (mode0r, mode1r, mode0t, mode1t, mode0z, mode1z)

/-- One invocation of `cuda_divide_scalar_by_volume(mode0, mode1, invvol0,
invvol1)` at thread index `(iz, ir)`: guarded on `mode0`'s shape, multiplies
the cell of each mode's array by that mode's inverse cell volume at radial
index `ir`. -/
def cuda_divide_scalar_by_volume (mode0 mode1 : CArr) (invvol0 invvol1 : RVec)
    (iz ir : Nat) : CArr × CArr :=
  if iz < mode0.nz ∧ ir < mode0.nr then
    ({ mode0 with data := setCell mode0.data iz ir (mode0.data iz ir * ofQ (invvol0 ir)) },
     { mode1 with data := setCell mode1.data iz ir (mode1.data iz ir * ofQ (invvol1 ir)) })
  else
    (mode0, mode1)

/-- One invocation of `cuda_divide_vector_by_volume(...)` at thread index
`(iz, ir)`: guarded on `mode0r`'s shape, multiplies the cell of each of the
six arrays by the corresponding mode's inverse cell volume at radial index
`ir`. -/
def cuda_divide_vector_by_volume (mode0r mode1r mode0t mode1t mode0z mode1z : CArr)
    (invvol0 invvol1 : RVec) (iz ir : Nat) :
    CArr × CArr × CArr × CArr × CArr × CArr :=
  if iz < mode0r.nz ∧ ir < mode0r.nr then
    ({ mode0r with data := setCell mode0r.data iz ir (mode0r.data iz ir * ofQ (invvol0 ir)) },
     { mode1r with data := setCell mode1r.data iz ir (mode1r.data iz ir * ofQ (invvol1 ir)) },
     { mode0t with data := setCell mode0t.data iz ir (mode0t.data iz ir * ofQ (invvol0 ir)) },
     { mode1t with data := setCell mode1t.data iz ir (mode1t.data iz ir * ofQ (invvol1 ir)) },
     { mode0z with data := setCell mode0z.data iz ir (mode0z.data iz ir * ofQ (invvol0 ir)) },
     { mode1z with data := setCell mode1z.data iz ir (mode1z.data iz ir * ofQ (invvol1 ir)) })
  else
    (mode0r, mode1r, mode0t, mode1t, mode0z, mode1z)

/-- The five spectral field arrays touched by `cuda_correct_currents`. -/
structure CorrState where
  rho_prev : Grid
  rho_next : Grid
  Jp : Grid
  Jm : Grid
  Jz : Grid

/-- One invocation of `cuda_correct_currents(rho_prev, rho_next, Jp, Jm, Jz,
kz, kr, inv_k2, j_corr_coef, T, inv_dt, Nz, Nr)` at thread index `(iz, ir)`:
computes the auxiliary correction scalar `F` and adds the correction terms to
the three current arrays.  `inv_dt` is a parameter of the Python kernel that
its body never reads. -/
def cuda_correct_currents (s : CorrState) (kz kr inv_k2 : RGrid)
    (j_corr_coef T : Grid) (inv_dt : ℚ) (Nz Nr iz ir : Nat) : CorrState :=
  if iz < Nz ∧ ir < Nr then
    let F : CC := - ofQ (inv_k2 iz ir) * ( j_corr_coef iz ir
        * (s.rho_next iz ir - s.rho_prev iz ir * T iz ir)
        + I * ofQ (kz iz ir) * s.Jz iz ir
        + ofQ (kr iz ir) * ( s.Jp iz ir - s.Jm iz ir ) )
    { s with
      Jp := setCell s.Jp iz ir (s.Jp iz ir + ofQ (1/2) * ofQ (kr iz ir) * F),
      Jm := setCell s.Jm iz ir (s.Jm iz ir + (- ofQ (1/2)) * ofQ (kr iz ir) * F),
      Jz := setCell s.Jz iz ir (s.Jz iz ir + (-I) * ofQ (kz iz ir) * F) }
  else
    s

/-- The full argument state of `cuda_push_eb_with`: the six field arrays it
mutates, the current and charge-density arrays, and the coefficient arrays
(`C`, `S_w`, `kr`, `kz` are `float64` arrays; the rest are `complex128`). -/
structure PushState where
  Ep : Grid
  Em : Grid
  Ez : Grid
  Bp : Grid
  Bm : Grid
  Bz : Grid
  Jp : Grid
  Jm : Grid
  Jz : Grid
  rho_prev : Grid
  rho_next : Grid
  rho_prev_coef : Grid
  rho_next_coef : Grid
  j_coef : Grid
  C : RGrid
  S_w : RGrid
  T : Grid
  T_rho : Grid
  kr : RGrid
  kz : RGrid

/-- One invocation of `cuda_push_eb_with(Ep, ..., rho_next, rho_prev_coef,
rho_next_coef, j_coef, C, S_w, T, T_rho, kr, kz, dt, V, ptcl_feedback,
use_true_rho, Nz, Nr)` at thread index `(iz, ir)`, with the physical
constants `c2 = c**2`, `mu_0`, `epsilon_0` (imported from `scipy.constants`
in the source) abstracted as rational parameters.  The in-place assignment
sequence of the Python body is rendered by threading the state through the
successive writes (`s1` after the `Ep` write, and so on); `Ep_old`, `Em_old`,
`Ez_old` and `rho_diff` are captured before any write, exactly as in the
source. -/
def cuda_push_eb_with (c2 mu_0 epsilon_0 : ℚ) (s : PushState) (dt V : ℚ)
    (ptcl_feedback use_true_rho : Bool) (Nz Nr iz ir : Nat) : PushState :=
  if iz < Nz ∧ ir < Nr then
    let Ep_old := s.Ep iz ir
    let Em_old := s.Em iz ir
    let Ez_old := s.Ez iz ir
    if ptcl_feedback then
      let rho_diff : CC :=
        if use_true_rho then
          s.rho_next_coef iz ir * s.rho_next iz ir
            - s.rho_prev_coef iz ir * s.rho_prev iz ir
        else
          let divE := ofQ (s.kr iz ir) * ( s.Ep iz ir - s.Em iz ir )
              + I * ofQ (s.kz iz ir) * s.Ez iz ir
          let divJ := ofQ (s.kr iz ir) * ( s.Jp iz ir - s.Jm iz ir )
              + I * ofQ (s.kz iz ir) * s.Jz iz ir
          ( s.T iz ir * s.rho_next_coef iz ir - s.rho_prev_coef iz ir )
            * ofQ epsilon_0 * divE
            + s.T_rho iz ir * s.rho_next_coef iz ir * ofQ dt * divJ
      let s1 := { s with Ep := setCell s.Ep iz ir (
        s.T iz ir * ofQ (s.C iz ir) * s.Ep iz ir
          + ofQ (1/2) * ofQ (s.kr iz ir) * rho_diff
          + s.j_coef iz ir * I * ofQ (s.kz iz ir) * ofQ V * s.Jp iz ir
          + ofQ c2 * s.T iz ir * ofQ (s.S_w iz ir) * ( -I * ofQ (1/2) * ofQ (s.kr iz ir) * s.Bz iz ir
          + ofQ (s.kz iz ir) * s.Bp iz ir - ofQ mu_0 * s.Jp iz ir ) ) }
      let s2 := { s1 with Em := setCell s1.Em iz ir (
        s1.T iz ir * ofQ (s1.C iz ir) * s1.Em iz ir
          - ofQ (1/2) * ofQ (s1.kr iz ir) * rho_diff
          + s1.j_coef iz ir * I * ofQ (s1.kz iz ir) * ofQ V * s1.Jm iz ir
          + ofQ c2 * s1.T iz ir * ofQ (s1.S_w iz ir) * ( -I * ofQ (1/2) * ofQ (s1.kr iz ir) * s1.Bz iz ir
          - ofQ (s1.kz iz ir) * s1.Bm iz ir - ofQ mu_0 * s1.Jm iz ir ) ) }
      let s3 := { s2 with Ez := setCell s2.Ez iz ir (
        s2.T iz ir * ofQ (s2.C iz ir) * s2.Ez iz ir
          - I * ofQ (s2.kz iz ir) * rho_diff
          + s2.j_coef iz ir * I * ofQ (s2.kz iz ir) * ofQ V * s2.Jz iz ir
          + ofQ c2 * s2.T iz ir * ofQ (s2.S_w iz ir) * ( I * ofQ (s2.kr iz ir) * s2.Bp iz ir
          + I * ofQ (s2.kr iz ir) * s2.Bm iz ir - ofQ mu_0 * s2.Jz iz ir ) ) }
      let s4 := { s3 with Bp := setCell s3.Bp iz ir (
        s3.T iz ir * ofQ (s3.C iz ir) * s3.Bp iz ir
          - s3.T iz ir * ofQ (s3.S_w iz ir) * ( -I * ofQ (1/2) * ofQ (s3.kr iz ir) * Ez_old
                      + ofQ (s3.kz iz ir) * Ep_old )
          + s3.j_coef iz ir * ( -I * ofQ (1/2) * ofQ (s3.kr iz ir) * s3.Jz iz ir
                      + ofQ (s3.kz iz ir) * s3.Jp iz ir ) ) }
      let s5 := { s4 with Bm := setCell s4.Bm iz ir (
        s4.T iz ir * ofQ (s4.C iz ir) * s4.Bm iz ir
          - s4.T iz ir * ofQ (s4.S_w iz ir) * ( -I * ofQ (1/2) * ofQ (s4.kr iz ir) * Ez_old
                      - ofQ (s4.kz iz ir) * Em_old )
          + s4.j_coef iz ir * ( -I * ofQ (1/2) * ofQ (s4.kr iz ir) * s4.Jz iz ir
                      - ofQ (s4.kz iz ir) * s4.Jm iz ir ) ) }
      { s5 with Bz := setCell s5.Bz iz ir (
        s5.T iz ir * ofQ (s5.C iz ir) * s5.Bz iz ir
          - s5.T iz ir * ofQ (s5.S_w iz ir) * ( I * ofQ (s5.kr iz ir) * Ep_old
                      + I * ofQ (s5.kr iz ir) * Em_old )
          + s5.j_coef iz ir * ( I * ofQ (s5.kr iz ir) * s5.Jp iz ir
                      + I * ofQ (s5.kr iz ir) * s5.Jm iz ir ) ) }
    else
      let s1 := { s with Ep := setCell s.Ep iz ir (
        s.T iz ir * ofQ (s.C iz ir) * s.Ep iz ir
          + ofQ c2 * s.T iz ir * ofQ (s.S_w iz ir) * ( -I * ofQ (1/2) * ofQ (s.kr iz ir) * s.Bz iz ir
          + ofQ (s.kz iz ir) * s.Bp iz ir ) ) }
      let s2 := { s1 with Em := setCell s1.Em iz ir (
        s1.T iz ir * ofQ (s1.C iz ir) * s1.Em iz ir
          + ofQ c2 * s1.T iz ir * ofQ (s1.S_w iz ir) * ( -I * ofQ (1/2) * ofQ (s1.kr iz ir) * s1.Bz iz ir
          - ofQ (s1.kz iz ir) * s1.Bm iz ir ) ) }
      let s3 := { s2 with Ez := setCell s2.Ez iz ir (
        s2.T iz ir * ofQ (s2.C iz ir) * s2.Ez iz ir
          + ofQ c2 * s2.T iz ir * ofQ (s2.S_w iz ir) * ( I * ofQ (s2.kr iz ir) * s2.Bp iz ir
          + I * ofQ (s2.kr iz ir) * s2.Bm iz ir ) ) }
      let s4 := { s3 with Bp := setCell s3.Bp iz ir (
        s3.T iz ir * ofQ (s3.C iz ir) * s3.Bp iz ir
          - s3.T iz ir * ofQ (s3.S_w iz ir) * ( -I * ofQ (1/2) * ofQ (s3.kr iz ir) * Ez_old
                      + ofQ (s3.kz iz ir) * Ep_old ) ) }
      let s5 := { s4 with Bm := setCell s4.Bm iz ir (
        s4.T iz ir * ofQ (s4.C iz ir) * s4.Bm iz ir
          - s4.T iz ir * ofQ (s4.S_w iz ir) * ( -I * ofQ (1/2) * ofQ (s4.kr iz ir) * Ez_old
                      - ofQ (s4.kz iz ir) * Em_old ) ) }
      { s5 with Bz := setCell s5.Bz iz ir (
        s5.T iz ir * ofQ (s5.C iz ir) * s5.Bz iz ir
          - s5.T iz ir * ofQ (s5.S_w iz ir) * ( I * ofQ (s5.kr iz ir) * Ep_old
                      + I * ofQ (s5.kr iz ir) * Em_old ) ) }
  else
    s

/-- One invocation of `cuda_push_rho(rho_prev, rho_next, Nz, Nr)` at thread
index `(iz, ir)`: copies the cell of `rho_next` into `rho_prev`, then zeroes
the cell of `rho_next`.  Returns `(rho_prev, rho_next)` after the update. -/
def cuda_push_rho (rho_prev rho_next : Grid) (Nz Nr iz ir : Nat) : Grid × Grid :=
  if iz < Nz ∧ ir < Nr then
    (setCell rho_prev iz ir (rho_next iz ir), setCell rho_next iz ir 0)
  else
    (rho_prev, rho_next)

/-- One invocation of `cuda_filter_scalar(field, filter_array, Nz, Nr)` at
thread index `(iz, ir)`: multiplies the cell of `field` by the damping
value. -/
def cuda_filter_scalar (field : Grid) (filter_array : RGrid) (Nz Nr iz ir : Nat) : Grid :=
  if iz < Nz ∧ ir < Nr then
    setCell field iz ir (ofQ (filter_array iz ir) * field iz ir)
  else
    field

/-- One invocation of `cuda_filter_vector(fieldr, fieldt, fieldz,
filter_array, Nz, Nr)` at thread index `(iz, ir)`: multiplies the cell of
each of the three component arrays by the damping value. -/
def cuda_filter_vector (fieldr fieldt fieldz : Grid) (filter_array : RGrid)
    (Nz Nr iz ir : Nat) : Grid × Grid × Grid :=
  if iz < Nz ∧ ir < Nr then
    (setCell fieldr iz ir (ofQ (filter_array iz ir) * fieldr iz ir),
     setCell fieldt iz ir (ofQ (filter_array iz ir) * fieldt iz ir),
     setCell fieldz iz ir (ofQ (filter_array iz ir) * fieldz iz ir))
  else
    (fieldr, fieldt, fieldz)

/-- A concrete push state used to witness the field-push theorems: all field
and coefficient arrays are constant, with `rho_next = 2` and `j_coef = 2` to
keep the source terms visible. -/
def oneState : PushState where
  Ep := fun _ _ => 1
  Em := fun _ _ => 1
  Ez := fun _ _ => 1
  Bp := fun _ _ => 1
  Bm := fun _ _ => 1
  Bz := fun _ _ => 1
  Jp := fun _ _ => 1
  Jm := fun _ _ => 1
  Jz := fun _ _ => 1
  rho_prev := fun _ _ => 1
  rho_next := fun _ _ => ⟨2, 0⟩
  rho_prev_coef := fun _ _ => 1
  rho_next_coef := fun _ _ => 1
  j_coef := fun _ _ => ⟨2, 0⟩
  C := fun _ _ => 1
  S_w := fun _ _ => 1
  T := fun _ _ => 1
  T_rho := fun _ _ => 1
  kr := fun _ _ => 1
  kz := fun _ _ => 1

/-- C1: with `ptcl_feedback = true` and `use_true_rho = true`, the field push
at an in-range cell `(iz, ir)` updates the three electric components exactly by
`rho_diff = rho_next_coef*rho_next - rho_prev_coef*rho_prev` and
`Ep = T*C*Ep + 0.5*kr*rho_diff + j_coef*i*kz*V*Jp
  + c2*T*S_w*(-i*0.5*kr*Bz + kz*Bp - mu_0*Jp)`,
`Em = T*C*Em - 0.5*kr*rho_diff + j_coef*i*kz*V*Jm
  + c2*T*S_w*(-i*0.5*kr*Bz - kz*Bm - mu_0*Jm)`,
`Ez = T*C*Ez - i*kz*rho_diff + j_coef*i*kz*V*Jz
  + c2*T*S_w*(i*kr*(Bp + Bm) - mu_0*Jz)`,
with every right-hand-side value the pre-call value at that cell. -/
theorem push_eb_true_rho_E_update (c2 mu_0 epsilon_0 dt V : ℚ) (s : PushState)
    (Nz Nr iz ir : Nat) (hz : iz < Nz) (hr : ir < Nr) :
    (cuda_push_eb_with c2 mu_0 epsilon_0 s dt V true true Nz Nr iz ir).Ep iz ir =
      s.T iz ir * ofQ (s.C iz ir) * s.Ep iz ir
        + ofQ (1/2) * ofQ (s.kr iz ir) *
          (s.rho_next_coef iz ir * s.rho_next iz ir - s.rho_prev_coef iz ir * s.rho_prev iz ir)
        + s.j_coef iz ir * I * ofQ (s.kz iz ir) * ofQ V * s.Jp iz ir
        + ofQ c2 * s.T iz ir * ofQ (s.S_w iz ir) * ( -I * ofQ (1/2) * ofQ (s.kr iz ir) * s.Bz iz ir
            + ofQ (s.kz iz ir) * s.Bp iz ir - ofQ mu_0 * s.Jp iz ir )
    ∧ (cuda_push_eb_with c2 mu_0 epsilon_0 s dt V true true Nz Nr iz ir).Em iz ir =
      s.T iz ir * ofQ (s.C iz ir) * s.Em iz ir
        - ofQ (1/2) * ofQ (s.kr iz ir) *
          (s.rho_next_coef iz ir * s.rho_next iz ir - s.rho_prev_coef iz ir * s.rho_prev iz ir)
        + s.j_coef iz ir * I * ofQ (s.kz iz ir) * ofQ V * s.Jm iz ir
        + ofQ c2 * s.T iz ir * ofQ (s.S_w iz ir) * ( -I * ofQ (1/2) * ofQ (s.kr iz ir) * s.Bz iz ir
            - ofQ (s.kz iz ir) * s.Bm iz ir - ofQ mu_0 * s.Jm iz ir )
    ∧ (cuda_push_eb_with c2 mu_0 epsilon_0 s dt V true true Nz Nr iz ir).Ez iz ir =
      s.T iz ir * ofQ (s.C iz ir) * s.Ez iz ir
        - I * ofQ (s.kz iz ir) *
          (s.rho_next_coef iz ir * s.rho_next iz ir - s.rho_prev_coef iz ir * s.rho_prev iz ir)
        + s.j_coef iz ir * I * ofQ (s.kz iz ir) * ofQ V * s.Jz iz ir
        + ofQ c2 * s.T iz ir * ofQ (s.S_w iz ir) * ( I * ofQ (s.kr iz ir) * (s.Bp iz ir + s.Bm iz ir)
            - ofQ mu_0 * s.Jz iz ir ) := by
  have hin : iz < Nz ∧ ir < Nr := ⟨hz, hr⟩
  refine ⟨?_, ?_, ?_⟩ <;> simp [cuda_push_eb_with, hin, setCell] <;> ring

/-- Witness for C1: the push applied to the concrete state `oneState` at cell
`(2, 1)` of a 4-by-4 grid, with every hypothesis discharged and the formulas
evaluated on both sides. -/
theorem push_eb_true_rho_E_update_witness :
    (cuda_push_eb_with 1 1 1 oneState 1 1 true true 4 4 2 1).Ep 2 1 = ⟨3/2, 3/2⟩
    ∧ (cuda_push_eb_with 1 1 1 oneState 1 1 true true 4 4 2 1).Em 2 1 = ⟨-3/2, 3/2⟩
    ∧ (cuda_push_eb_with 1 1 1 oneState 1 1 true true 4 4 2 1).Ez 2 1 = ⟨0, 3⟩ := by
  have h := push_eb_true_rho_E_update 1 1 1 1 1 oneState 4 4 2 1 (by decide) (by decide)
  refine ⟨h.1.trans ?_, h.2.1.trans ?_, h.2.2.trans ?_⟩ <;>
    (ext <;> simp [oneState] <;> norm_num)

/-- C2: with `ptcl_feedback = true` (and either value of `use_true_rho`), the
magnetic-field update of the field push at an in-range cell reads the
pre-update electric field: the new `Bp` equals
`T*C*Bp - T*S_w*(-i*0.5*kr*Ez_old + kz*Ep_old) + j_coef*(-i*0.5*kr*Jz + kz*Jp)`
where `Ep_old`, `Em_old`, `Ez_old` are the values of `Ep`, `Em`, `Ez` at that
cell before the call (not the freshly pushed values), and analogously for
`Bm` and `Bz`. -/
theorem push_eb_B_reads_old_E (c2 mu_0 epsilon_0 dt V : ℚ) (utr : Bool)
    (s : PushState) (Nz Nr iz ir : Nat) (hz : iz < Nz) (hr : ir < Nr) :
    (cuda_push_eb_with c2 mu_0 epsilon_0 s dt V true utr Nz Nr iz ir).Bp iz ir =
      s.T iz ir * ofQ (s.C iz ir) * s.Bp iz ir
        - s.T iz ir * ofQ (s.S_w iz ir) * ( -I * ofQ (1/2) * ofQ (s.kr iz ir) * s.Ez iz ir
            + ofQ (s.kz iz ir) * s.Ep iz ir )
        + s.j_coef iz ir * ( -I * ofQ (1/2) * ofQ (s.kr iz ir) * s.Jz iz ir
            + ofQ (s.kz iz ir) * s.Jp iz ir )
    ∧ (cuda_push_eb_with c2 mu_0 epsilon_0 s dt V true utr Nz Nr iz ir).Bm iz ir =
      s.T iz ir * ofQ (s.C iz ir) * s.Bm iz ir
        - s.T iz ir * ofQ (s.S_w iz ir) * ( -I * ofQ (1/2) * ofQ (s.kr iz ir) * s.Ez iz ir
            - ofQ (s.kz iz ir) * s.Em iz ir )
        + s.j_coef iz ir * ( -I * ofQ (1/2) * ofQ (s.kr iz ir) * s.Jz iz ir
            - ofQ (s.kz iz ir) * s.Jm iz ir )
    ∧ (cuda_push_eb_with c2 mu_0 epsilon_0 s dt V true utr Nz Nr iz ir).Bz iz ir =
      s.T iz ir * ofQ (s.C iz ir) * s.Bz iz ir
        - s.T iz ir * ofQ (s.S_w iz ir) * ( I * ofQ (s.kr iz ir) * s.Ep iz ir
            + I * ofQ (s.kr iz ir) * s.Em iz ir )
        + s.j_coef iz ir * ( I * ofQ (s.kr iz ir) * s.Jp iz ir
            + I * ofQ (s.kr iz ir) * s.Jm iz ir ) := by
  have hin : iz < Nz ∧ ir < Nr := ⟨hz, hr⟩
  cases utr <;> exact ⟨by simp [cuda_push_eb_with, hin, setCell],
    by simp [cuda_push_eb_with, hin, setCell],
    by simp [cuda_push_eb_with, hin, setCell]⟩

/-- Witness for C2: the push applied to `oneState` at cell `(2, 1)` of a
4-by-4 grid, hypotheses discharged, values evaluated concretely. -/
theorem push_eb_B_reads_old_E_witness :
    (cuda_push_eb_with 1 1 1 oneState 1 1 true false 4 4 2 1).Bp 2 1 = ⟨2, -1/2⟩
    ∧ (cuda_push_eb_with 1 1 1 oneState 1 1 true false 4 4 2 1).Bm 2 1 = ⟨0, -1/2⟩
    ∧ (cuda_push_eb_with 1 1 1 oneState 1 1 true false 4 4 2 1).Bz 2 1 = ⟨1, 2⟩ := by
  have h := push_eb_B_reads_old_E 1 1 1 1 1 false oneState 4 4 2 1 (by decide) (by decide)
  refine ⟨h.1.trans ?_, h.2.1.trans ?_, h.2.2.trans ?_⟩ <;>
    (ext <;> simp [oneState] <;> norm_num)

/-- C3: at an in-range cell the current correction computes
`F = -inv_k2 * ( j_corr_coef*(rho_next - rho_prev*T) + i*kz*Jz + kr*(Jp - Jm) )`
from the pre-call values at that cell, then adds `0.5*kr*F` to `Jp`,
`-0.5*kr*F` to `Jm` and `-i*kz*F` to `Jz`, and leaves `rho_prev` and
`rho_next` unchanged at that cell. -/
theorem correct_currents_update (s : CorrState) (kz kr inv_k2 : RGrid)
    (j_corr_coef T : Grid) (inv_dt : ℚ) (Nz Nr iz ir : Nat)
    (hz : iz < Nz) (hr : ir < Nr) :
    (cuda_correct_currents s kz kr inv_k2 j_corr_coef T inv_dt Nz Nr iz ir).Jp iz ir =
      s.Jp iz ir + ofQ (1/2) * ofQ (kr iz ir) *
        ( - ofQ (inv_k2 iz ir) * ( j_corr_coef iz ir
            * (s.rho_next iz ir - s.rho_prev iz ir * T iz ir)
            + I * ofQ (kz iz ir) * s.Jz iz ir
            + ofQ (kr iz ir) * ( s.Jp iz ir - s.Jm iz ir ) ) )
    ∧ (cuda_correct_currents s kz kr inv_k2 j_corr_coef T inv_dt Nz Nr iz ir).Jm iz ir =
      s.Jm iz ir - ofQ (1/2) * ofQ (kr iz ir) *
        ( - ofQ (inv_k2 iz ir) * ( j_corr_coef iz ir
            * (s.rho_next iz ir - s.rho_prev iz ir * T iz ir)
            + I * ofQ (kz iz ir) * s.Jz iz ir
            + ofQ (kr iz ir) * ( s.Jp iz ir - s.Jm iz ir ) ) )
    ∧ (cuda_correct_currents s kz kr inv_k2 j_corr_coef T inv_dt Nz Nr iz ir).Jz iz ir =
      s.Jz iz ir - I * ofQ (kz iz ir) *
        ( - ofQ (inv_k2 iz ir) * ( j_corr_coef iz ir
            * (s.rho_next iz ir - s.rho_prev iz ir * T iz ir)
            + I * ofQ (kz iz ir) * s.Jz iz ir
            + ofQ (kr iz ir) * ( s.Jp iz ir - s.Jm iz ir ) ) )
    ∧ (cuda_correct_currents s kz kr inv_k2 j_corr_coef T inv_dt Nz Nr iz ir).rho_prev iz ir =
      s.rho_prev iz ir
    ∧ (cuda_correct_currents s kz kr inv_k2 j_corr_coef T inv_dt Nz Nr iz ir).rho_next iz ir =
      s.rho_next iz ir := by
  have hin : iz < Nz ∧ ir < Nr := ⟨hz, hr⟩
  refine ⟨?_, ?_, ?_, ?_, ?_⟩ <;> (simp [cuda_correct_currents, hin, setCell]; try ring)

/-- A concrete current-correction state used to witness the current-corrector
theorems. -/
def corrState : CorrState where
  rho_prev := fun _ _ => 1
  rho_next := fun _ _ => ⟨2, 0⟩
  Jp := fun _ _ => 1
  Jm := fun _ _ => 1
  Jz := fun _ _ => 1

/-- Witness for C3: the correction applied to `corrState` at cell `(2, 1)` of
a 4-by-4 grid, with `kz = kr = 1`, `inv_k2 = 1/2`, `j_corr_coef = 3`,
`T = 1`, hypotheses discharged and values evaluated concretely. -/
theorem correct_currents_update_witness :
    (cuda_correct_currents corrState (fun _ _ => 1) (fun _ _ => 1) (fun _ _ => 1/2)
        (fun _ _ => ⟨3, 0⟩) (fun _ _ => 1) 1 4 4 2 1).Jp 2 1 = ⟨1/4, -1/4⟩
    ∧ (cuda_correct_currents corrState (fun _ _ => 1) (fun _ _ => 1) (fun _ _ => 1/2)
        (fun _ _ => ⟨3, 0⟩) (fun _ _ => 1) 1 4 4 2 1).Jm 2 1 = ⟨7/4, 1/4⟩
    ∧ (cuda_correct_currents corrState (fun _ _ => 1) (fun _ _ => 1) (fun _ _ => 1/2)
        (fun _ _ => ⟨3, 0⟩) (fun _ _ => 1) 1 4 4 2 1).Jz 2 1 = ⟨1/2, 3/2⟩
    ∧ (cuda_correct_currents corrState (fun _ _ => 1) (fun _ _ => 1) (fun _ _ => 1/2)
        (fun _ _ => ⟨3, 0⟩) (fun _ _ => 1) 1 4 4 2 1).rho_prev 2 1 = 1
    ∧ (cuda_correct_currents corrState (fun _ _ => 1) (fun _ _ => 1) (fun _ _ => 1/2)
        (fun _ _ => ⟨3, 0⟩) (fun _ _ => 1) 1 4 4 2 1).rho_next 2 1 = ⟨2, 0⟩ := by
  have h := correct_currents_update corrState (fun _ _ => 1) (fun _ _ => 1) (fun _ _ => 1/2)
    (fun _ _ => ⟨3, 0⟩) (fun _ _ => 1) 1 4 4 2 1 (by decide) (by decide)
  refine ⟨h.1.trans ?_, h.2.1.trans ?_, h.2.2.1.trans ?_, h.2.2.2.1.trans ?_, h.2.2.2.2.trans ?_⟩ <;>
    (ext <;> simp [corrState] <;> norm_num)

/-- C4: at an in-range cell where `inv_k2` is the true inverse of
`kz^2 + kr^2`, the continuity residual computed from the corrected currents,
`j_corr_coef*(rho_next - rho_prev*T) + i*kz*Jz + kr*(Jp - Jm)`, vanishes
exactly, for arbitrary input values of `rho_prev`, `rho_next`, `Jp`, `Jm`,
`Jz` at that cell. -/
theorem correct_currents_continuity (s : CorrState) (kz kr inv_k2 : RGrid)
    (j_corr_coef T : Grid) (inv_dt : ℚ) (Nz Nr iz ir : Nat)
    (hz : iz < Nz) (hr : ir < Nr)
    (hk : inv_k2 iz ir * ((kz iz ir)^2 + (kr iz ir)^2) = 1) :
    j_corr_coef iz ir *
        ((cuda_correct_currents s kz kr inv_k2 j_corr_coef T inv_dt Nz Nr iz ir).rho_next iz ir
          - (cuda_correct_currents s kz kr inv_k2 j_corr_coef T inv_dt Nz Nr iz ir).rho_prev iz ir
            * T iz ir)
      + I * ofQ (kz iz ir) *
          (cuda_correct_currents s kz kr inv_k2 j_corr_coef T inv_dt Nz Nr iz ir).Jz iz ir
      + ofQ (kr iz ir) *
          ((cuda_correct_currents s kz kr inv_k2 j_corr_coef T inv_dt Nz Nr iz ir).Jp iz ir
            - (cuda_correct_currents s kz kr inv_k2 j_corr_coef T inv_dt Nz Nr iz ir).Jm iz ir) =
      0 := by
  have hin : iz < Nz ∧ ir < Nr := ⟨hz, hr⟩
  have hk' : ofQ (inv_k2 iz ir) * (ofQ (kz iz ir) * ofQ (kz iz ir)
      + ofQ (kr iz ir) * ofQ (kr iz ir)) = 1 := by
    rw [← CC.ofQ_mul, ← CC.ofQ_mul, ← CC.ofQ_add, ← CC.ofQ_mul]
    rw [show inv_k2 iz ir * (kz iz ir * kz iz ir + kr iz ir * kr iz ir) = 1 by
      rw [← hk]; ring]
    exact CC.ofQ_one
  have h2 : ofQ (1/2) * (1 + 1) = (1 : CC) := by ext <;> simp <;> norm_num
  simp only [cuda_correct_currents, hin, if_true, and_self, if_pos, setCell_same]
  linear_combination (- (j_corr_coef iz ir * (s.rho_next iz ir - s.rho_prev iz ir * T iz ir)
      + I * ofQ (kz iz ir) * s.Jz iz ir
      + ofQ (kr iz ir) * (s.Jp iz ir - s.Jm iz ir))) * hk'
    + (ofQ (kz iz ir))^2 * (ofQ (inv_k2 iz ir)) *
        (j_corr_coef iz ir * (s.rho_next iz ir - s.rho_prev iz ir * T iz ir)
          + I * ofQ (kz iz ir) * s.Jz iz ir
          + ofQ (kr iz ir) * (s.Jp iz ir - s.Jm iz ir)) * CC.I_mul_I
    - (ofQ (inv_k2 iz ir)) * (ofQ (kr iz ir))^2 *
        (j_corr_coef iz ir * (s.rho_next iz ir - s.rho_prev iz ir * T iz ir)
          + I * ofQ (kz iz ir) * s.Jz iz ir
          + ofQ (kr iz ir) * (s.Jp iz ir - s.Jm iz ir)) * h2

/-- Witness for C4: the continuity residual vanishes for `corrState` at cell
`(2, 1)` with `kz = kr = 1` and `inv_k2 = 1/2`, the true inverse of
`kz^2 + kr^2 = 2`. -/
theorem correct_currents_continuity_witness :
    (fun _ _ => ⟨3, 0⟩ : Grid) 2 1 *
        ((cuda_correct_currents corrState (fun _ _ => 1) (fun _ _ => 1) (fun _ _ => 1/2)
            (fun _ _ => ⟨3, 0⟩) (fun _ _ => 1) 1 4 4 2 1).rho_next 2 1
          - (cuda_correct_currents corrState (fun _ _ => 1) (fun _ _ => 1) (fun _ _ => 1/2)
              (fun _ _ => ⟨3, 0⟩) (fun _ _ => 1) 1 4 4 2 1).rho_prev 2 1
            * (fun _ _ => 1 : Grid) 2 1)
      + I * ofQ ((fun _ _ => 1 : RGrid) 2 1) *
          (cuda_correct_currents corrState (fun _ _ => 1) (fun _ _ => 1) (fun _ _ => 1/2)
            (fun _ _ => ⟨3, 0⟩) (fun _ _ => 1) 1 4 4 2 1).Jz 2 1
      + ofQ ((fun _ _ => 1 : RGrid) 2 1) *
          ((cuda_correct_currents corrState (fun _ _ => 1) (fun _ _ => 1) (fun _ _ => 1/2)
              (fun _ _ => ⟨3, 0⟩) (fun _ _ => 1) 1 4 4 2 1).Jp 2 1
            - (cuda_correct_currents corrState (fun _ _ => 1) (fun _ _ => 1) (fun _ _ => 1/2)
                (fun _ _ => ⟨3, 0⟩) (fun _ _ => 1) 1 4 4 2 1).Jm 2 1) =
      0 :=
  correct_currents_continuity corrState (fun _ _ => 1) (fun _ _ => 1) (fun _ _ => 1/2)
    (fun _ _ => ⟨3, 0⟩) (fun _ _ => 1) 1 4 4 2 1 (by decide) (by decide) (by norm_num)

/-- Overwriting the same cell twice keeps only the second write. -/
theorem setCell_setCell (g : Grid) (iz ir : Nat) (v w : CC) :
    setCell (setCell g iz ir v) iz ir w = setCell g iz ir w := by
  funext i j
  by_cases h : i = iz ∧ j = ir <;> simp [setCell, h]

/-- C5: at an in-range cell, after the rho-history shift `rho_prev` holds
exactly the value `rho_next` held immediately before the call and `rho_next`
holds exactly zero (the two arrays being distinct values of the model, they
cannot alias). -/
theorem push_rho_shift (rho_prev rho_next : Grid) (Nz Nr iz ir : Nat)
    (hz : iz < Nz) (hr : ir < Nr) :
    (cuda_push_rho rho_prev rho_next Nz Nr iz ir).1 iz ir = rho_next iz ir
    ∧ (cuda_push_rho rho_prev rho_next Nz Nr iz ir).2 iz ir = 0 := by
  have hin : iz < Nz ∧ ir < Nr := ⟨hz, hr⟩
  simp [cuda_push_rho, hin]

/-- Witness for C5: the shift applied to concrete constant grids at cell
`(2, 1)` of a 4-by-4 grid. -/
theorem push_rho_shift_witness :
    (cuda_push_rho (fun _ _ => ⟨1, 1⟩) (fun _ _ => ⟨5, 7⟩) 4 4 2 1).1 2 1 = ⟨5, 7⟩
    ∧ (cuda_push_rho (fun _ _ => ⟨1, 1⟩) (fun _ _ => ⟨5, 7⟩) 4 4 2 1).2 2 1 = 0 := by
  have h := push_rho_shift (fun _ _ => ⟨1, 1⟩) (fun _ _ => ⟨5, 7⟩) 4 4 2 1
    (by decide) (by decide)
  exact ⟨h.1.trans rfl, h.2⟩

/-- C8: applying the spectral filter twice with the damping array `w` equals
applying it once with the pointwise product `w*w`, as whole arrays (hence at
every cell), for the scalar kernel and for each of the three components of
the vector kernel. -/
theorem filter_twice_eq_filter_square (f fr ft fz : Grid) (w : RGrid)
    (Nz Nr iz ir : Nat) :
    cuda_filter_scalar (cuda_filter_scalar f w Nz Nr iz ir) w Nz Nr iz ir
      = cuda_filter_scalar f (fun i j => w i j * w i j) Nz Nr iz ir
    ∧ cuda_filter_vector
        (cuda_filter_vector fr ft fz w Nz Nr iz ir).1
        (cuda_filter_vector fr ft fz w Nz Nr iz ir).2.1
        (cuda_filter_vector fr ft fz w Nz Nr iz ir).2.2
        w Nz Nr iz ir
      = cuda_filter_vector fr ft fz (fun i j => w i j * w i j) Nz Nr iz ir := by
  by_cases hin : iz < Nz ∧ ir < Nr <;>
    simp [cuda_filter_scalar, cuda_filter_vector, hin, setCell_setCell,
      CC.ofQ_mul, mul_assoc]

/-- C10: the field push mutates only the six field arrays `Ep`, `Em`, `Ez`,
`Bp`, `Bm`, `Bz`: for every thread index, both feedback switches and every
input, the current arrays, the charge-density arrays and all coefficient
arrays of the state are unchanged after the call. -/
theorem push_eb_frame (c2 mu_0 epsilon_0 dt V : ℚ) (pf utr : Bool)
    (s : PushState) (Nz Nr iz ir : Nat) :
    (cuda_push_eb_with c2 mu_0 epsilon_0 s dt V pf utr Nz Nr iz ir).Jp = s.Jp
    ∧ (cuda_push_eb_with c2 mu_0 epsilon_0 s dt V pf utr Nz Nr iz ir).Jm = s.Jm
    ∧ (cuda_push_eb_with c2 mu_0 epsilon_0 s dt V pf utr Nz Nr iz ir).Jz = s.Jz
    ∧ (cuda_push_eb_with c2 mu_0 epsilon_0 s dt V pf utr Nz Nr iz ir).rho_prev = s.rho_prev
    ∧ (cuda_push_eb_with c2 mu_0 epsilon_0 s dt V pf utr Nz Nr iz ir).rho_next = s.rho_next
    ∧ (cuda_push_eb_with c2 mu_0 epsilon_0 s dt V pf utr Nz Nr iz ir).rho_prev_coef = s.rho_prev_coef
    ∧ (cuda_push_eb_with c2 mu_0 epsilon_0 s dt V pf utr Nz Nr iz ir).rho_next_coef = s.rho_next_coef
    ∧ (cuda_push_eb_with c2 mu_0 epsilon_0 s dt V pf utr Nz Nr iz ir).j_coef = s.j_coef
    ∧ (cuda_push_eb_with c2 mu_0 epsilon_0 s dt V pf utr Nz Nr iz ir).C = s.C
    ∧ (cuda_push_eb_with c2 mu_0 epsilon_0 s dt V pf utr Nz Nr iz ir).S_w = s.S_w
    ∧ (cuda_push_eb_with c2 mu_0 epsilon_0 s dt V pf utr Nz Nr iz ir).T = s.T
    ∧ (cuda_push_eb_with c2 mu_0 epsilon_0 s dt V pf utr Nz Nr iz ir).T_rho = s.T_rho
    ∧ (cuda_push_eb_with c2 mu_0 epsilon_0 s dt V pf utr Nz Nr iz ir).kr = s.kr
    ∧ (cuda_push_eb_with c2 mu_0 epsilon_0 s dt V pf utr Nz Nr iz ir).kz = s.kz := by
  cases pf <;> by_cases hin : iz < Nz ∧ ir < Nr <;>
    simp [cuda_push_eb_with, hin]

/-- C7: for every thread index and every coefficient set, the field push with
`ptcl_feedback = false` produces exactly the same new `E` and `B` arrays as
the push with `ptcl_feedback = true` and `use_true_rho = true` applied to the
same state but with `Jp`, `Jm`, `Jz`, `rho_prev`, `rho_next` all zero: the
no-feedback branch is the feedback branch with every `rho_diff` term and
every `j_coef*J` and `mu_0*J` source term omitted. -/
theorem push_eb_no_feedback_refines_feedback (c2 mu_0 epsilon_0 dt V : ℚ)
    (utr : Bool) (s : PushState) (Nz Nr iz ir : Nat) :
    ((cuda_push_eb_with c2 mu_0 epsilon_0 s dt V false utr Nz Nr iz ir).Ep,
     (cuda_push_eb_with c2 mu_0 epsilon_0 s dt V false utr Nz Nr iz ir).Em,
     (cuda_push_eb_with c2 mu_0 epsilon_0 s dt V false utr Nz Nr iz ir).Ez,
     (cuda_push_eb_with c2 mu_0 epsilon_0 s dt V false utr Nz Nr iz ir).Bp,
     (cuda_push_eb_with c2 mu_0 epsilon_0 s dt V false utr Nz Nr iz ir).Bm,
     (cuda_push_eb_with c2 mu_0 epsilon_0 s dt V false utr Nz Nr iz ir).Bz) =
    ((cuda_push_eb_with c2 mu_0 epsilon_0
        { s with Jp := fun _ _ => 0, Jm := fun _ _ => 0, Jz := fun _ _ => 0,
                 rho_prev := fun _ _ => 0, rho_next := fun _ _ => 0 }
        dt V true true Nz Nr iz ir).Ep,
     (cuda_push_eb_with c2 mu_0 epsilon_0
        { s with Jp := fun _ _ => 0, Jm := fun _ _ => 0, Jz := fun _ _ => 0,
                 rho_prev := fun _ _ => 0, rho_next := fun _ _ => 0 }
        dt V true true Nz Nr iz ir).Em,
     (cuda_push_eb_with c2 mu_0 epsilon_0
        { s with Jp := fun _ _ => 0, Jm := fun _ _ => 0, Jz := fun _ _ => 0,
                 rho_prev := fun _ _ => 0, rho_next := fun _ _ => 0 }
        dt V true true Nz Nr iz ir).Ez,
     (cuda_push_eb_with c2 mu_0 epsilon_0
        { s with Jp := fun _ _ => 0, Jm := fun _ _ => 0, Jz := fun _ _ => 0,
                 rho_prev := fun _ _ => 0, rho_next := fun _ _ => 0 }
        dt V true true Nz Nr iz ir).Bp,
     (cuda_push_eb_with c2 mu_0 epsilon_0
        { s with Jp := fun _ _ => 0, Jm := fun _ _ => 0, Jz := fun _ _ => 0,
                 rho_prev := fun _ _ => 0, rho_next := fun _ _ => 0 }
        dt V true true Nz Nr iz ir).Bm,
     (cuda_push_eb_with c2 mu_0 epsilon_0
        { s with Jp := fun _ _ => 0, Jm := fun _ _ => 0, Jz := fun _ _ => 0,
                 rho_prev := fun _ _ => 0, rho_next := fun _ _ => 0 }
        dt V true true Nz Nr iz ir).Bz) := by
  by_cases hin : iz < Nz ∧ ir < Nr <;>
    simp only [cuda_push_eb_with, hin, if_true, if_false, Bool.false_eq_true,
      Prod.mk.injEq, if_pos, reduceIte] <;>
    refine ⟨?_, ?_, ?_, ?_, ?_, ?_⟩ <;>
    first
      | rfl
      | (refine congrArg (setCell _ iz ir) ?_; ring)

/-- C9: an invocation of any kernel of this core at an out-of-range thread
index modifies no element of any array: for the kernels taking `Nz`, `Nr`
the guard is `iz < Nz` and `ir < Nr`, for the erase and divide-by-volume
kernels it is the first array's shape; the out-of-range invocation returns
every array unchanged and reports nothing. -/
theorem out_of_range_noop (c2 mu_0 epsilon_0 dt V inv_dt : ℚ) (pf utr : Bool)
    (s : PushState) (cs : CorrState) (kz kr inv_k2 w : RGrid)
    (j_corr_coef T rho_prev rho_next f fr ft fz : Grid)
    (m0 m1 m2 m3 m4 m5 : CArr) (invvol0 invvol1 : RVec)
    (Nz Nr iz ir : Nat)
    (h : Nz ≤ iz ∨ Nr ≤ ir)
    (h0 : m0.nz ≤ iz ∨ m0.nr ≤ ir) :
    cuda_push_eb_with c2 mu_0 epsilon_0 s dt V pf utr Nz Nr iz ir = s
    ∧ cuda_correct_currents cs kz kr inv_k2 j_corr_coef T inv_dt Nz Nr iz ir = cs
    ∧ cuda_push_rho rho_prev rho_next Nz Nr iz ir = (rho_prev, rho_next)
    ∧ cuda_filter_scalar f w Nz Nr iz ir = f
    ∧ cuda_filter_vector fr ft fz w Nz Nr iz ir = (fr, ft, fz)
    ∧ cuda_erase_scalar m0 m1 iz ir = (m0, m1)
    ∧ cuda_erase_vector m0 m1 m2 m3 m4 m5 iz ir = (m0, m1, m2, m3, m4, m5)
    ∧ cuda_divide_scalar_by_volume m0 m1 invvol0 invvol1 iz ir = (m0, m1)
    ∧ cuda_divide_vector_by_volume m0 m1 m2 m3 m4 m5 invvol0 invvol1 iz ir
        = (m0, m1, m2, m3, m4, m5) := by
  have hin : ¬(iz < Nz ∧ ir < Nr) := by
    rcases h with h | h <;> omega
  have hin0 : ¬(iz < m0.nz ∧ ir < m0.nr) := by
    rcases h0 with h0 | h0 <;> omega
  refine ⟨?_, ?_, ?_, ?_, ?_, ?_, ?_, ?_, ?_⟩ <;>
    simp [cuda_push_eb_with, cuda_correct_currents, cuda_push_rho,
      cuda_filter_scalar, cuda_filter_vector, cuda_erase_scalar,
      cuda_erase_vector, cuda_divide_scalar_by_volume,
      cuda_divide_vector_by_volume, hin, hin0]

/-- A concrete shaped 4-by-4 array used to witness the out-of-range theorem. -/
def wArr : CArr where
  nz := 4
  nr := 4
  data := fun _ _ => ⟨1, 1⟩

/-- Witness for C9: every kernel invoked at thread index `(7, 0)` against
4-by-4 arrays returns its inputs unchanged. -/
theorem out_of_range_noop_witness :
    cuda_push_eb_with 1 1 1 oneState 1 1 true true 4 4 7 0 = oneState
    ∧ cuda_correct_currents corrState (fun _ _ => 1) (fun _ _ => 1) (fun _ _ => 1/2)
        (fun _ _ => ⟨3, 0⟩) (fun _ _ => 1) 1 4 4 7 0 = corrState
    ∧ cuda_push_rho (fun _ _ => ⟨1, 1⟩) (fun _ _ => ⟨5, 7⟩) 4 4 7 0
        = ((fun _ _ => ⟨1, 1⟩ : Grid), (fun _ _ => ⟨5, 7⟩ : Grid))
    ∧ cuda_filter_scalar (fun _ _ => ⟨1, 1⟩) (fun _ _ => 1) 4 4 7 0
        = (fun _ _ => ⟨1, 1⟩ : Grid)
    ∧ cuda_filter_vector (fun _ _ => ⟨1, 1⟩) (fun _ _ => ⟨2, 2⟩) (fun _ _ => ⟨3, 3⟩)
        (fun _ _ => 1) 4 4 7 0
        = ((fun _ _ => ⟨1, 1⟩ : Grid), (fun _ _ => ⟨2, 2⟩ : Grid), (fun _ _ => ⟨3, 3⟩ : Grid))
    ∧ cuda_erase_scalar wArr wArr 7 0 = (wArr, wArr)
    ∧ cuda_erase_vector wArr wArr wArr wArr wArr wArr 7 0
        = (wArr, wArr, wArr, wArr, wArr, wArr)
    ∧ cuda_divide_scalar_by_volume wArr wArr (fun _ => 1) (fun _ => 1) 7 0 = (wArr, wArr)
    ∧ cuda_divide_vector_by_volume wArr wArr wArr wArr wArr wArr
        (fun _ => 1) (fun _ => 1) 7 0 = (wArr, wArr, wArr, wArr, wArr, wArr) :=
  out_of_range_noop 1 1 1 1 1 1 true true oneState corrState
    (fun _ _ => 1) (fun _ _ => 1) (fun _ _ => 1/2) (fun _ _ => 1)
    (fun _ _ => ⟨3, 0⟩) (fun _ _ => 1) (fun _ _ => ⟨1, 1⟩) (fun _ _ => ⟨5, 7⟩)
    (fun _ _ => ⟨1, 1⟩) (fun _ _ => ⟨1, 1⟩) (fun _ _ => ⟨2, 2⟩) (fun _ _ => ⟨3, 3⟩)
    wArr wArr wArr wArr wArr wArr (fun _ => 1) (fun _ => 1)
    4 4 7 0 (Or.inl (by decide)) (Or.inl (by decide))

/-- The golden scenario of spec section 8: a 4-by-4 grid with `kz = kr = 0`
everywhere except cell `(2, 1)` where `kz = 1` and `kr = 1/2`, a unit current
`Jz = 1` at that cell, all other fields zero, and the coefficient choices
`T = C = 1`, `S_w = dt`, `T_rho = 1`, `j_coef = dt` (with the unspecified
`rho_prev_coef`, `rho_next_coef` left as parameters). -/
def goldenState (rpc rnc : CC) (dt : ℚ) : PushState where
  Ep := fun _ _ => 0
  Em := fun _ _ => 0
  Ez := fun _ _ => 0
  Bp := fun _ _ => 0
  Bm := fun _ _ => 0
  Bz := fun _ _ => 0
  Jp := fun _ _ => 0
  Jm := fun _ _ => 0
  Jz := fun i j => if i = 2 ∧ j = 1 then 1 else 0
  rho_prev := fun _ _ => 0
  rho_next := fun _ _ => 0
  rho_prev_coef := fun _ _ => rpc
  rho_next_coef := fun _ _ => rnc
  j_coef := fun _ _ => ofQ dt
  C := fun _ _ => 1
  S_w := fun _ _ => dt
  T := fun _ _ => 1
  T_rho := fun _ _ => 1
  kr := fun i j => if i = 2 ∧ j = 1 then 1/2 else 0
  kz := fun i j => if i = 2 ∧ j = 1 then 1 else 0

/-- Counterexample for C6: with `rho_prev_coef = rho_next_coef = 1` and
`dt = 1`, `V = 0` (and unit physical constants), one field push of the golden
scenario does not leave `Ep` equal to `0` at cell `(2, 1)`: since `divJ =
i*kz*Jz = i` is nonzero there, `rho_diff = i` and the new `Ep` is `i/4`. -/
theorem golden_scenario_Ep_nonzero :
    (cuda_push_eb_with 1 1 1 (goldenState 1 1 1) 1 0 true false 4 4 2 1).Ep 2 1 ≠ 0 := by
  have hval : (cuda_push_eb_with 1 1 1 (goldenState 1 1 1) 1 0 true false 4 4 2 1).Ep 2 1
      = ⟨0, 1/4⟩ := by
    have hin : (2 : Nat) < 4 ∧ (1 : Nat) < 4 := by decide
    simp only [cuda_push_eb_with, hin, if_true, Bool.false_eq_true, if_false,
      and_self, if_pos, reduceIte, setCell_same, goldenState]
    ext <;> simp <;> norm_num
  rw [hval]
  intro hcontra
  have := congrArg CC.im hcontra
  norm_num at this

/-- C6 (amended): in the golden scenario, one field push leaves all three
electric-field arrays unchanged when invoked at any in-range cell other than
`(2, 1)`; invoked at `(2, 1)`, the auxiliary quantity `rho_diff` is computed
from `divE = 0` and `divJ = i*kz*Jz = i`, giving `rho_diff =
T_rho*rho_next_coef*dt*divJ = rho_next_coef*dt*i`, and the updated `Ep` at
that cell equals `0.5*kr*rho_diff = 0.25*rho_next_coef*dt*i` (the remaining
terms vanish since `Bz = 0` and `Jp = 0` there). -/
theorem golden_scenario_update (rpc rnc : CC) (dt V c2 mu_0 epsilon_0 : ℚ)
    (iz ir : Nat) (hz : iz < 4) (hr : ir < 4) (hne : ¬(iz = 2 ∧ ir = 1)) :
    ((cuda_push_eb_with c2 mu_0 epsilon_0 (goldenState rpc rnc dt) dt V
        true false 4 4 iz ir).Ep = (goldenState rpc rnc dt).Ep
      ∧ (cuda_push_eb_with c2 mu_0 epsilon_0 (goldenState rpc rnc dt) dt V
          true false 4 4 iz ir).Em = (goldenState rpc rnc dt).Em
      ∧ (cuda_push_eb_with c2 mu_0 epsilon_0 (goldenState rpc rnc dt) dt V
          true false 4 4 iz ir).Ez = (goldenState rpc rnc dt).Ez)
    ∧ (cuda_push_eb_with c2 mu_0 epsilon_0 (goldenState rpc rnc dt) dt V
        true false 4 4 2 1).Ep 2 1 = ofQ (1/4) * rnc * ofQ dt * I := by
  constructor
  · have hin : iz < 4 ∧ ir < 4 := ⟨hz, hr⟩
    refine ⟨?_, ?_, ?_⟩ <;>
      (simp only [cuda_push_eb_with, hin, if_true, Bool.false_eq_true, if_false,
        and_self, if_pos, reduceIte, goldenState, hne] <;>
       funext i j <;>
       by_cases hij : i = iz ∧ j = ir <;>
       simp [setCell, hij, hne] <;> ring)
  · have hin : (2 : Nat) < 4 ∧ (1 : Nat) < 4 := by decide
    simp only [cuda_push_eb_with, hin, if_true, Bool.false_eq_true, if_false,
      and_self, if_pos, reduceIte, setCell_same, goldenState, CC.ofQ_one]
    rw [show (ofQ (1/4) : CC) = ofQ (1/2) * ofQ (1/2) by
      rw [← CC.ofQ_mul]; norm_num]
    ring

/-- Witness for the amended C6: the golden scenario with `rho_prev_coef =
rho_next_coef = 1`, `dt = 1`, `V = 0` and unit physical constants, invoked at
the in-range cell `(0, 0)` (distinct from `(2, 1)`), every hypothesis
discharged and the `(2, 1)` value evaluated concretely. -/
theorem golden_scenario_update_witness :
    ((cuda_push_eb_with 1 1 1 (goldenState 1 1 1) 1 0 true false 4 4 0 0).Ep
        = (goldenState 1 1 1).Ep
      ∧ (cuda_push_eb_with 1 1 1 (goldenState 1 1 1) 1 0 true false 4 4 0 0).Em
          = (goldenState 1 1 1).Em
      ∧ (cuda_push_eb_with 1 1 1 (goldenState 1 1 1) 1 0 true false 4 4 0 0).Ez
          = (goldenState 1 1 1).Ez)
    ∧ (cuda_push_eb_with 1 1 1 (goldenState 1 1 1) 1 0 true false 4 4 2 1).Ep 2 1
        = ⟨0, 1/4⟩ := by
  have h := golden_scenario_update 1 1 1 0 1 1 1 0 0 (by decide) (by decide) (by decide)
  exact ⟨h.1, h.2.trans (by ext <;> simp <;> norm_num)⟩
